import Mathlib

/-!
Shallow embedding of the QnA forum's core logic (vote ledger, view tracker,
listing filter, ownership guard, deletion-redirect resolution), translated
from `qnas/views.py` and `qnas/models.py`, together with theorems settling
the specification claims about it.
-/

namespace QnA

/-! ### Vote ledger (`_manage_votes` / `_vote` in views.py, vote models in models.py)

A vote row targets either a Question or an Answer (`QuestionVote` /
`AnswerVote` are two tables of identical shape; we unify them with a
target-kind sum, which is faithful because a question id and an answer id
never collide as targets). -/

inductive Target where
  | question (id : Nat)
  | answer (id : Nat)
deriving DecidableEq

structure VoteRow where
  user : Nat
  target : Target
  value : Int
deriving DecidableEq

/-- The lookup filter of `get_or_create(user=request.user, question=question)`:
rows of this (voter, target) pair, any value. -/
def voteMatch (u : Nat) (t : Target) (r : VoteRow) : Bool :=
  decide (r.user = u ∧ r.target = t)

/-- All stored vote rows for the (voter, target) pair. -/
def rowsFor (st : List VoteRow) (u : Nat) (t : Target) : List VoteRow :=
  st.filter (voteMatch u t)

/-- `vote.delete()`: remove the single row that `get_or_create` returned,
i.e. the first stored row of the pair. -/
def eraseFirstRow (u : Nat) (t : Target) : List VoteRow → List VoteRow
  | [] => []
  | r :: rs => if voteMatch u t r then rs else r :: eraseFirstRow u t rs

/-- `vote.value = value; vote.save()`: update in place the single row that
`get_or_create` returned. -/
def updateFirstRow (u : Nat) (t : Target) (v : Int) : List VoteRow → List VoteRow
  | [] => []
  | r :: rs =>
    if voteMatch u t r then { r with value := v } :: rs
    else r :: updateFirstRow u t v rs

/-- `_manage_votes(value, Model.objects.get_or_create(defaults={'value': value},
user=..., <target>=...))`: create the row when the pair has none; delete it when
it holds the same value; update its value otherwise. -/
def castVote (st : List VoteRow) (u : Nat) (t : Target) (v : Int) : List VoteRow :=
  match rowsFor st u t with
  | [] => st ++ [⟨u, t, v⟩]
  | r :: _ => if r.value = v then eraseFirstRow u t st else updateFirstRow u t v st

/-- Rows referencing a target, any voter (`self.votes`). -/
def targetRows (st : List VoteRow) (t : Target) : List VoteRow :=
  st.filter (fun r => decide (r.target = t))

/-- `aggregate(vote_count=Sum('value')).get('vote_count')`: `None` on an empty
row set, the sum otherwise. -/
def sumValues (rows : List VoteRow) : Option Int :=
  if rows.isEmpty then none else some ((rows.map VoteRow.value).sum)

/-- `Question.vote_count` / `Answer.vote_count`:
`aggregate(...).get('vote_count') or 0` — Python `or` maps both `None` and a
falsy `0` sum to `0`. -/
def voteCount (st : List VoteRow) (t : Target) : Int :=
  match sumValues (targetRows st t) with
  | none => 0
  | some s => if s = 0 then 0 else s

/-! ### Helper lemmas on the vote ledger -/

theorem voteMatch_self (u : Nat) (t : Target) (v : Int) :
    voteMatch u t ⟨u, t, v⟩ = true := by
  simp [voteMatch]

theorem voteMatch_other {u u' : Nat} {t t' : Target} (v : Int)
    (h : ¬(u' = u ∧ t' = t)) : voteMatch u' t' ⟨u, t, v⟩ = false := by
  simp only [voteMatch, decide_eq_false_iff_not]
  rintro ⟨rfl, rfl⟩
  exact h ⟨rfl, rfl⟩

theorem mem_rowsFor {st : List VoteRow} {u : Nat} {t : Target} {r : VoteRow}
    (h : r ∈ rowsFor st u t) : r.user = u ∧ r.target = t := by
  have := (List.mem_filter.mp h).2
  simpa [voteMatch] using this

theorem rowsFor_append (st : List VoteRow) (u : Nat) (t : Target) (v : Int) :
    rowsFor (st ++ [⟨u, t, v⟩]) u t = rowsFor st u t ++ [⟨u, t, v⟩] := by
  simp [rowsFor, List.filter_append, voteMatch_self]

theorem rowsFor_append_other (st : List VoteRow) {u u' : Nat} {t t' : Target}
    (v : Int) (h : ¬(u' = u ∧ t' = t)) :
    rowsFor (st ++ [⟨u, t, v⟩]) u' t' = rowsFor st u' t' := by
  simp [rowsFor, List.filter_append, voteMatch_other v h]

theorem rowsFor_eraseFirstRow_self (u : Nat) (t : Target) :
    ∀ st : List VoteRow, rowsFor (eraseFirstRow u t st) u t = (rowsFor st u t).tail := by
  intro st
  induction st with
  | nil => rfl
  | cons r rs ih =>
    by_cases h : voteMatch u t r
    · simp [eraseFirstRow, rowsFor, List.filter_cons, h]
    · simpa [eraseFirstRow, rowsFor, List.filter_cons, h] using ih

theorem rowsFor_eraseFirstRow_other {u u' : Nat} {t t' : Target}
    (h : ¬(u' = u ∧ t' = t)) :
    ∀ st : List VoteRow, rowsFor (eraseFirstRow u t st) u' t' = rowsFor st u' t' := by
  intro st
  induction st with
  | nil => rfl
  | cons r rs ih =>
    by_cases hm : voteMatch u t r
    · have hr : r.user = u ∧ r.target = t := by
        simpa [voteMatch] using hm
      have : voteMatch u' t' r = false := by
        rcases hr with ⟨h1, h2⟩
        simp only [voteMatch, decide_eq_false_iff_not]
        rintro ⟨h1', h2'⟩
        exact h ⟨h1 ▸ h1'.symm ▸ rfl, h2 ▸ h2'.symm ▸ rfl⟩
      simp [eraseFirstRow, rowsFor, List.filter_cons, hm, this]
    · have ih' := ih
      simp only [rowsFor] at ih'
      by_cases hm' : voteMatch u' t' r <;>
        simp [eraseFirstRow, rowsFor, List.filter_cons, hm, hm', ih']

theorem rowsFor_updateFirstRow_self (u : Nat) (t : Target) (v : Int) :
    ∀ st : List VoteRow, rowsFor (updateFirstRow u t v st) u t =
      match rowsFor st u t with
      | [] => []
      | r :: rest => { r with value := v } :: rest := by
  intro st
  induction st with
  | nil => rfl
  | cons r rs ih =>
    by_cases h : voteMatch u t r
    · have h' : voteMatch u t { r with value := v } = true := by
        simpa [voteMatch] using (by simpa [voteMatch] using h : r.user = u ∧ r.target = t)
      simp [updateFirstRow, rowsFor, List.filter_cons, h, h']
    · simpa [updateFirstRow, rowsFor, List.filter_cons, h] using ih

theorem rowsFor_updateFirstRow_other {u u' : Nat} {t t' : Target} (v : Int)
    (h : ¬(u' = u ∧ t' = t)) :
    ∀ st : List VoteRow, rowsFor (updateFirstRow u t v st) u' t' = rowsFor st u' t' := by
  intro st
  induction st with
  | nil => rfl
  | cons r rs ih =>
    by_cases hm : voteMatch u t r
    · have hr : r.user = u ∧ r.target = t := by
        simpa [voteMatch] using hm
      have h1 : voteMatch u' t' r = false := by
        rcases hr with ⟨e1, e2⟩
        simp only [voteMatch, decide_eq_false_iff_not]
        rintro ⟨e1', e2'⟩
        exact h ⟨e1 ▸ e1'.symm ▸ rfl, e2 ▸ e2'.symm ▸ rfl⟩
      have h2 : voteMatch u' t' { r with value := v } = false := by
        rcases hr with ⟨e1, e2⟩
        simp only [voteMatch, decide_eq_false_iff_not]
        rintro ⟨e1', e2'⟩
        exact h ⟨e1 ▸ e1'.symm ▸ rfl, e2 ▸ e2'.symm ▸ rfl⟩
      simp [updateFirstRow, rowsFor, List.filter_cons, hm, h1, h2]
    · have ih' := ih
      simp only [rowsFor] at ih'
      by_cases hm' : voteMatch u' t' r <;>
        simp [updateFirstRow, rowsFor, List.filter_cons, hm, hm', ih']

theorem castVote_of_no_row {st : List VoteRow} {u : Nat} {t : Target} (v : Int)
    (h : rowsFor st u t = []) : castVote st u t v = st ++ [⟨u, t, v⟩] := by
  simp [castVote, h]

theorem castVote_of_same {st : List VoteRow} {u : Nat} {t : Target} {v : Int}
    {r : VoteRow} {rest : List VoteRow} (h : rowsFor st u t = r :: rest)
    (hv : r.value = v) : castVote st u t v = eraseFirstRow u t st := by
  simp [castVote, h, hv]

theorem castVote_of_diff {st : List VoteRow} {u : Nat} {t : Target} {v : Int}
    {r : VoteRow} {rest : List VoteRow} (h : rowsFor st u t = r :: rest)
    (hv : r.value ≠ v) : castVote st u t v = updateFirstRow u t v st := by
  simp [castVote, h, hv]

theorem rowsFor_castVote_other (st : List VoteRow) (u : Nat) (t : Target)
    (v : Int) {u' : Nat} {t' : Target} (h : ¬(u' = u ∧ t' = t)) :
    rowsFor (castVote st u t v) u' t' = rowsFor st u' t' := by
  unfold castVote
  cases hfib : rowsFor st u t with
  | nil => exact rowsFor_append_other st v h
  | cons r rest =>
    by_cases hv : r.value = v
    · simp only [hv, if_pos rfl]
      exact rowsFor_eraseFirstRow_other h st
    · simp only [if_neg hv]
      exact rowsFor_updateFirstRow_other v h st

theorem eraseFirstRow_append_of_no_row {u : Nat} {t : Target} (x : VoteRow)
    (hx : voteMatch u t x = true) :
    ∀ st : List VoteRow, rowsFor st u t = [] → eraseFirstRow u t (st ++ [x]) = st := by
  intro st
  induction st with
  | nil => intro _; simp [eraseFirstRow, hx]
  | cons r rs ih =>
    intro h
    rw [rowsFor, List.filter_cons] at h
    by_cases hm : voteMatch u t r
    · simp [hm] at h
    · simp only [hm, Bool.false_eq_true, if_false] at h
      rw [List.cons_append, eraseFirstRow, if_neg (by simp [hm]),
        ih (by simpa [rowsFor] using h)]

/-- C1: `cast_vote(voter, target, value)` creates a row with the given value
when the pair has no row, deletes the row when it holds the same value,
updates it to the new value when it holds a different one, and leaves every
other (voter, target) pair's rows untouched. -/
theorem vote_toggle_semantics (st : List VoteRow) (u : Nat) (t : Target)
    (v : Int) (hv : v = 1 ∨ v = -1) :
    (rowsFor st u t = [] → castVote st u t v = st ++ [⟨u, t, v⟩]) ∧
    (∀ r : VoteRow, rowsFor st u t = [r] → r.value = v →
      rowsFor (castVote st u t v) u t = []) ∧
    (∀ r : VoteRow, rowsFor st u t = [r] → r.value ≠ v →
      rowsFor (castVote st u t v) u t = [⟨u, t, v⟩]) ∧
    (∀ (u' : Nat) (t' : Target), ¬(u' = u ∧ t' = t) →
      rowsFor (castVote st u t v) u' t' = rowsFor st u' t') := by
  refine ⟨fun h => castVote_of_no_row v h, fun r h hval => ?_, fun r h hval => ?_,
    fun u' t' h => rowsFor_castVote_other st u t v h⟩
  · rw [castVote_of_same h hval, rowsFor_eraseFirstRow_self, h]
    rfl
  · have hr : r.user = u ∧ r.target = t :=
      mem_rowsFor (by rw [h]; exact List.mem_singleton_self r)
    rw [castVote_of_diff h hval, rowsFor_updateFirstRow_self, h]
    obtain ⟨h1, h2⟩ := hr
    cases r
    simp_all

theorem vote_toggle_semantics_witness :
    castVote [] 0 (Target.question 0) 1 = [⟨0, Target.question 0, 1⟩] := by
  have h := (vote_toggle_semantics [] 0 (Target.question 0) 1 (Or.inl rfl)).1 rfl
  simpa using h

/-- C6: `vote_count(target)` equals the integer sum of `value` over all vote
rows referencing the target, and equals 0 when no such rows exist (the code's
`aggregate(Sum('value')) ... or 0` coincides with the plain sum). -/
theorem vote_count_is_sum (st : List VoteRow) (t : Target) :
    voteCount st t = ((targetRows st t).map VoteRow.value).sum ∧
    (targetRows st t = [] → voteCount st t = 0) := by
  constructor
  · unfold voteCount sumValues
    by_cases h : (targetRows st t).isEmpty
    · rw [List.isEmpty_iff] at h
      simp [h]
    · simp only [h, Bool.false_eq_true, if_false]
      split_ifs with h0
      · exact h0.symm
      · rfl
  · intro h
    unfold voteCount sumValues
    simp [h]

theorem vote_count_is_sum_witness :
    voteCount [] (Target.question 0) = 0 :=
  (vote_count_is_sum [] (Target.question 0)).2 rfl

/-! ### The at-most-one-vote invariant (C7) -/

/-- At most one stored vote row per (voter, target) pair. -/
def atMostOneVote (st : List VoteRow) : Prop :=
  ∀ (u : Nat) (t : Target), (rowsFor st u t).length ≤ 1

/-- One `cast_vote` request: voter, target and the posted value. -/
structure VoteOp where
  user : Nat
  target : Target
  value : Int

/-- A sequence of `cast_vote` requests applied in order. -/
def applyVotes (st : List VoteRow) (ops : List VoteOp) : List VoteRow :=
  ops.foldl (fun s op => castVote s op.user op.target op.value) st

theorem castVote_atMostOne {st : List VoteRow} (h : atMostOneVote st)
    (u : Nat) (t : Target) (v : Int) : atMostOneVote (castVote st u t v) := by
  intro u' t'
  by_cases hp : u' = u ∧ t' = t
  · obtain ⟨rfl, rfl⟩ := hp
    cases hfib : rowsFor st u' t' with
    | nil =>
      rw [castVote_of_no_row v hfib, rowsFor_append, hfib]
      simp
    | cons r rest =>
      have hrest : rest = [] := by
        have hlen := h u' t'
        rw [hfib, List.length_cons] at hlen
        exact List.length_eq_zero.mp (by omega)
      subst hrest
      by_cases hv : r.value = v
      · rw [castVote_of_same hfib hv, rowsFor_eraseFirstRow_self, hfib]
        simp
      · rw [castVote_of_diff hfib hv, rowsFor_updateFirstRow_self, hfib]
        simp
  · rw [rowsFor_castVote_other st u t v hp]
    exact h u' t'

/-- C7: any sequence of `cast_vote` operations starting from a ledger with at
most one vote row per (voter, target) pair ends in a ledger that still has at
most one row per pair. -/
theorem vote_invariant_preserved (st : List VoteRow) (ops : List VoteOp)
    (h : atMostOneVote st) : atMostOneVote (applyVotes st ops) := by
  induction ops generalizing st with
  | nil => exact h
  | cons op rest ih => exact ih _ (castVote_atMostOne h op.user op.target op.value)

theorem vote_invariant_preserved_witness :
    atMostOneVote (applyVotes []
      [⟨0, Target.question 0, 1⟩, ⟨0, Target.question 0, -1⟩]) :=
  vote_invariant_preserved [] _ (fun u t => by simp [rowsFor])

/-- C8 counterexample: from a state with (at most) one existing row for the
pair, casting the same value twice does NOT always end in the no-vote state
(an existing +1 row is deleted and then re-created), and the target's
vote_count is NOT always unaffected by the pair (an existing −1 row is
flipped and then deleted, moving the count from −1 to 0). -/
theorem vote_pair_counterexample :
    rowsFor
      (castVote (castVote [⟨0, Target.question 0, 1⟩] 0 (Target.question 0) 1)
        0 (Target.question 0) 1) 0 (Target.question 0) ≠ [] ∧
    voteCount
      (castVote (castVote [⟨0, Target.question 0, -1⟩] 0 (Target.question 0) 1)
        0 (Target.question 0) 1) (Target.question 0) ≠
      voteCount [⟨0, Target.question 0, -1⟩] (Target.question 0) := by
  decide

/-- C8 (amended): starting with no row for (voter, target), casting the same
value twice restores the prior ledger exactly (no-vote state, vote_count
unaffected), and casting +1 then −1 moves the voter's contribution from a
single +1 row to a single −1 row; from any state with at most one row for the
pair, casting +1 then −1 ends with exactly one row holding −1, never two. -/
theorem vote_pair_algebra (st : List VoteRow) (u : Nat) (t : Target) (v : Int)
    (hv : v = 1 ∨ v = -1) :
    (rowsFor st u t = [] →
      castVote (castVote st u t v) u t v = st ∧
      voteCount (castVote (castVote st u t v) u t v) t = voteCount st t ∧
      rowsFor (castVote st u t 1) u t = [⟨u, t, 1⟩] ∧
      rowsFor (castVote (castVote st u t 1) u t (-1)) u t = [⟨u, t, -1⟩]) ∧
    ((rowsFor st u t).length ≤ 1 →
      rowsFor (castVote (castVote st u t 1) u t (-1)) u t = [⟨u, t, -1⟩]) := by
  have flip_from_nil : rowsFor st u t = [] →
      rowsFor (castVote st u t 1) u t = [⟨u, t, 1⟩] ∧
      rowsFor (castVote (castVote st u t 1) u t (-1)) u t = [⟨u, t, -1⟩] := by
    intro h
    have h1 : castVote st u t 1 = st ++ [⟨u, t, 1⟩] := castVote_of_no_row 1 h
    have hfib : rowsFor (castVote st u t 1) u t = [⟨u, t, 1⟩] := by
      rw [h1, rowsFor_append, h]
      rfl
    refine ⟨hfib, ?_⟩
    rw [castVote_of_diff hfib (by decide : (1 : Int) ≠ -1),
      rowsFor_updateFirstRow_self, hfib]
  constructor
  · intro h
    have h1 : castVote st u t v = st ++ [⟨u, t, v⟩] := castVote_of_no_row v h
    have hfib : rowsFor (castVote st u t v) u t = [⟨u, t, v⟩] := by
      rw [h1, rowsFor_append, h]
      rfl
    have hback : castVote (castVote st u t v) u t v = st := by
      rw [castVote_of_same hfib rfl, h1]
      exact eraseFirstRow_append_of_no_row _ (voteMatch_self u t v) st h
    exact ⟨hback, by rw [hback], flip_from_nil h⟩
  · intro hlen
    cases hfib : rowsFor st u t with
    | nil => exact (flip_from_nil hfib).2
    | cons r rest =>
      have hrest : rest = [] := by
        rw [hfib, List.length_cons] at hlen
        exact List.length_eq_zero.mp (by omega)
      subst hrest
      have hr : r.user = u ∧ r.target = t :=
        mem_rowsFor (by rw [hfib]; exact List.mem_singleton_self r)
      by_cases hv1 : r.value = 1
      · -- first cast deletes, second cast creates a −1 row
        have h1 : castVote st u t 1 = eraseFirstRow u t st :=
          castVote_of_same hfib hv1
        have hempty : rowsFor (castVote st u t 1) u t = [] := by
          rw [h1, rowsFor_eraseFirstRow_self, hfib]
          rfl
        rw [castVote_of_no_row (-1) hempty, rowsFor_append, hempty]
        rfl
      · -- first cast flips to +1, second cast flips to −1
        have h1 : castVote st u t 1 = updateFirstRow u t 1 st :=
          castVote_of_diff hfib hv1
        have hfib1 : rowsFor (castVote st u t 1) u t = [⟨u, t, 1⟩] := by
          rw [h1, rowsFor_updateFirstRow_self, hfib]
          obtain ⟨e1, e2⟩ := hr
          cases r
          simp_all
        rw [castVote_of_diff hfib1 (by decide : (1 : Int) ≠ -1),
          rowsFor_updateFirstRow_self, hfib1]

theorem vote_pair_algebra_witness :
    castVote (castVote [] 0 (Target.question 0) 1) 0 (Target.question 0) 1 = [] :=
  ((vote_pair_algebra [] 0 (Target.question 0) 1 (Or.inl rfl)).1 rfl).1

/-! ### View tracker (`_manage_views` in views.py, `View` model in models.py)

A viewer is a registered user or an anonymous IP address; time is in
seconds. -/

inductive Viewer where
  | user (id : Nat)
  | ip (addr : String)
deriving DecidableEq

structure ViewRow where
  viewer : Viewer
  question : Nat
  viewTime : Int
deriving DecidableEq

/-- The filter of `View.objects.filter(**identifier, question=question)`. -/
def viewMatch (v : Viewer) (q : Nat) (r : ViewRow) : Bool :=
  decide (r.viewer = v ∧ r.question = q)

/-- Stored View rows of this (viewer, question). -/
def viewsFor (st : List ViewRow) (v : Viewer) (q : Nat) : List ViewRow :=
  st.filter (viewMatch v q)

/-- `View.hrs_since_viewed`: `(now - view_time).total_seconds() / 3600`. -/
def hrsSinceViewed (now viewTime : Int) : ℚ :=
  ((now - viewTime : Int) : ℚ) / 3600

/-- `views.latest("view_time")`: the view time of the most recent matching
row (only its timestamp is consulted). Used on a nonempty row set only. -/
def latestTime (rows : List ViewRow) : Int :=
  ((rows.map ViewRow.viewTime).max?).getD 0

/-- `_manage_views`: insert a row at the current time when the
(viewer, question) pair has none, or when strictly more than one hour has
elapsed since the pair's most recent row; otherwise leave the store as is. -/
def manageViews (st : List ViewRow) (v : Viewer) (q : Nat) (now : Int) :
    List ViewRow :=
  if (viewsFor st v q).isEmpty then st ++ [⟨v, q, now⟩]
  else if hrsSinceViewed now (latestTime (viewsFor st v q)) > 1 then
    st ++ [⟨v, q, now⟩]
  else st

theorem viewMatch_self (v : Viewer) (q : Nat) (ts : Int) :
    viewMatch v q ⟨v, q, ts⟩ = true := by
  simp [viewMatch]

theorem viewsFor_append (st : List ViewRow) (v : Viewer) (q : Nat) (ts : Int) :
    viewsFor (st ++ [⟨v, q, ts⟩]) v q = viewsFor st v q ++ [⟨v, q, ts⟩] := by
  simp [viewsFor, List.filter_append, viewMatch_self]

theorem hrsSinceViewed_gt_one_iff (now ts : Int) :
    hrsSinceViewed now ts > 1 ↔ now - ts > 3600 := by
  unfold hrsSinceViewed
  rw [gt_iff_lt, lt_div_iff₀ (by norm_num : (0 : ℚ) < 3600), one_mul]
  exact_mod_cast Iff.rfl

theorem manageViews_insert_of_empty {st : List ViewRow} {v : Viewer} {q : Nat}
    (h : viewsFor st v q = []) (now : Int) :
    manageViews st v q now = st ++ [⟨v, q, now⟩] := by
  unfold manageViews
  rw [if_pos (by simp [h])]

theorem manageViews_insert_of_stale {st : List ViewRow} {v : Viewer} {q : Nat}
    (hne : viewsFor st v q ≠ []) {now : Int}
    (hgt : now - latestTime (viewsFor st v q) > 3600) :
    manageViews st v q now = st ++ [⟨v, q, now⟩] := by
  unfold manageViews
  rw [if_neg (by simp [List.isEmpty_iff, hne]),
    if_pos ((hrsSinceViewed_gt_one_iff _ _).mpr hgt)]

theorem manageViews_noop_of_recent {st : List ViewRow} {v : Viewer} {q : Nat}
    (hne : viewsFor st v q ≠ []) {now : Int}
    (hle : ¬(now - latestTime (viewsFor st v q) > 3600)) :
    manageViews st v q now = st := by
  unfold manageViews
  rw [if_neg (by simp [List.isEmpty_iff, hne]),
    if_neg (fun hc => hle ((hrsSinceViewed_gt_one_iff _ _).mp hc))]

/-- C2: `record_view` inserts a row when the (viewer, question) pair has no
prior row; otherwise it inserts exactly when strictly more than one hour has
elapsed since the pair's most recent row, and is a no-op otherwise. Two calls
within one hour starting from no prior row leave exactly one row for the
pair; two calls three hours apart leave two. -/
theorem record_view_semantics (st : List ViewRow) (v : Viewer) (q : Nat)
    (now : Int) :
    (viewsFor st v q = [] → manageViews st v q now = st ++ [⟨v, q, now⟩]) ∧
    (viewsFor st v q ≠ [] → now - latestTime (viewsFor st v q) > 3600 →
      manageViews st v q now = st ++ [⟨v, q, now⟩]) ∧
    (viewsFor st v q ≠ [] → ¬(now - latestTime (viewsFor st v q) > 3600) →
      manageViews st v q now = st) ∧
    (∀ t1 t2 : Int, viewsFor st v q = [] → t2 - t1 ≤ 3600 →
      (viewsFor (manageViews (manageViews st v q t1) v q t2) v q).length = 1) ∧
    (∀ t1 t2 : Int, viewsFor st v q = [] → t2 - t1 = 3 * 3600 →
      (viewsFor (manageViews (manageViews st v q t1) v q t2) v q).length = 2) := by
  refine ⟨fun h => manageViews_insert_of_empty h now,
    fun hne hgt => manageViews_insert_of_stale hne hgt,
    fun hne hle => manageViews_noop_of_recent hne hle,
    fun t1 t2 h hwin => ?_, fun t1 t2 h hgap => ?_⟩
  · have h1 := manageViews_insert_of_empty h t1
    have hfib : viewsFor (manageViews st v q t1) v q = [⟨v, q, t1⟩] := by
      rw [h1, viewsFor_append, h]
      rfl
    have hlat : latestTime (viewsFor (manageViews st v q t1) v q) = t1 := by
      rw [hfib]
      rfl
    have h2 := @manageViews_noop_of_recent (manageViews st v q t1) v q
      (by rw [hfib]; simp) t2 (by rw [hlat]; omega)
    rw [h2, hfib]
    rfl
  · have h1 := manageViews_insert_of_empty h t1
    have hfib : viewsFor (manageViews st v q t1) v q = [⟨v, q, t1⟩] := by
      rw [h1, viewsFor_append, h]
      rfl
    have hlat : latestTime (viewsFor (manageViews st v q t1) v q) = t1 := by
      rw [hfib]
      rfl
    have h2 := @manageViews_insert_of_stale (manageViews st v q t1) v q
      (by rw [hfib]; simp) t2 (by rw [hlat]; omega)
    rw [h2, viewsFor_append, hfib]
    rfl

theorem record_view_semantics_witness :
    (viewsFor (manageViews (manageViews [] (Viewer.user 0) 0 0)
      (Viewer.user 0) 0 1800) (Viewer.user 0) 0).length = 1 :=
  (record_view_semantics [] (Viewer.user 0) 0 0).2.2.2.1 0 1800 rfl (by omega)

/-! ### Listing filter (`_get_questions_context` and `tags` in views.py)

Python's stable `sorted(..., reverse=True)` and the queryset `order_by`
calls are rendered with `List.insertionSort`, which is the stable sort:
ties keep their input order. -/

/-- Python `str.lower()` (`tab.lower()` in views.py). -/
def strLower (s : String) : String := String.mk (s.data.map Char.toLower)

/-- `request.GET.get("tab") or default`: a missing parameter and the falsy
empty string both fall back to the default. -/
def tabOr (default : String) (tabParam : Option String) : String :=
  match tabParam with
  | none => default
  | some s => if s = "" then default else s

structure QuestionRec where
  id : Nat
  answers : List Nat
  views : List Nat
deriving DecidableEq

/-- `question.views.count()`. -/
def qViewCount (q : QuestionRec) : Nat := q.views.length

/-- `_get_questions_context(request, all_questions)`: resolve the tab, then
keep only unanswered questions, stably sort by view count descending, or
fall back to tab `"Newest"` with the collection unchanged. -/
def getQuestionsContext (tabParam : Option String)
    (allQuestions : List QuestionRec) : List QuestionRec × String :=
  let tab := tabOr "Newest" tabParam
  if strLower tab = "unanswered" then
    (allQuestions.filter (fun q => q.answers.isEmpty), tab)
  else if strLower tab = "popular" then
    (allQuestions.insertionSort (fun a b => qViewCount b ≤ qViewCount a), tab)
  else
    (allQuestions, "Newest")

structure TagRec where
  id : Nat
  text : String
  creationDate : Int
  questionCount : Nat
deriving DecidableEq

/-- The `tags` view: resolve the tab, then stably sort by
`tag.questions.count()` descending, or order by creation date descending or
by text ascending; an unrecognized nonempty tab leaves the collection as
loaded (`Tag.objects.all()`) and only relabels the tab `"Popular"`. -/
def tagsView (tabParam : Option String) (allTags : List TagRec) :
    List TagRec × String :=
  let tab := tabOr "Popular" tabParam
  if strLower tab = "popular" then
    (allTags.insertionSort (fun a b => TagRec.questionCount b ≤ TagRec.questionCount a), tab)
  else if strLower tab = "new" then
    (allTags.insertionSort (fun a b => TagRec.creationDate b ≤ TagRec.creationDate a), tab)
  else if strLower tab = "name" then
    (allTags.insertionSort (fun a b => TagRec.text a ≤ TagRec.text b), tab)
  else
    (allTags, "Popular")

/-! ### Stability and sortedness of the insertion sorts -/

theorem filter_key_orderedInsert {α β : Type} [LinearOrder β] (key : α → β)
    (k : β) (x : α) (l : List α) :
    (l.orderedInsert (fun a b => key b ≤ key a) x).filter
        (fun a => decide (key a = k)) =
      if key x = k then x :: l.filter (fun a => decide (key a = k))
      else l.filter (fun a => decide (key a = k)) := by
  induction l with
  | nil => by_cases h : key x = k <;> simp [List.orderedInsert, h]
  | cons b bs ih =>
    simp only [List.orderedInsert]
    by_cases hxb : key b ≤ key x
    · rw [if_pos hxb]
      by_cases h : key x = k <;> simp [List.filter_cons, h]
    · rw [if_neg hxb]
      have hlt : key x < key b := not_le.mp hxb
      rw [List.filter_cons, List.filter_cons, ih]
      by_cases hb : key b = k
      · have hx : ¬ key x = k := by
          intro hc
          have he : key x = key b := hc.trans hb.symm
          rw [he] at hlt
          exact lt_irrefl _ hlt
        simp [hb, hx]
      · by_cases hx : key x = k <;> simp [hb, hx]

theorem filter_key_insertionSort {α β : Type} [LinearOrder β] (key : α → β)
    (k : β) (l : List α) :
    (l.insertionSort (fun a b => key b ≤ key a)).filter
        (fun a => decide (key a = k)) =
      l.filter (fun a => decide (key a = k)) := by
  induction l with
  | nil => rfl
  | cons b bs ih =>
    simp only [List.insertionSort]
    rw [filter_key_orderedInsert]
    by_cases h : key b = k <;> simp [List.filter_cons, h, ih]

theorem sorted_desc_insertionSort {α β : Type} [LinearOrder β] (key : α → β)
    (l : List α) :
    List.Sorted (fun a b => key b ≤ key a)
      (l.insertionSort (fun a b => key b ≤ key a)) := by
  haveI : IsTotal α (fun a b => key b ≤ key a) := ⟨fun a b => le_total (key b) (key a)⟩
  haveI : IsTrans α (fun a b => key b ≤ key a) :=
    ⟨fun a b c hab hbc => le_trans hbc hab⟩
  exact List.sorted_insertionSort _ l

theorem sorted_asc_insertionSort {α β : Type} [LinearOrder β] (key : α → β)
    (l : List α) :
    List.Sorted (fun a b => key a ≤ key b)
      (l.insertionSort (fun a b => key a ≤ key b)) := by
  haveI : IsTotal α (fun a b => key a ≤ key b) := ⟨fun a b => le_total (key a) (key b)⟩
  haveI : IsTrans α (fun a b => key a ≤ key b) :=
    ⟨fun a b c hab hbc => le_trans hab hbc⟩
  exact List.sorted_insertionSort _ l

theorem strLower_ne_empty {s : String} {w : String} (h : strLower s = w)
    (hw : w ≠ "") : s ≠ "" := by
  intro hc
  subst hc
  rw [show strLower "" = "" from by decide] at h
  exact hw h.symm

/-- C3: on the question listing, an `unanswered` tab (case-insensitive) keeps
exactly the zero-answer questions in order; a `popular` tab stably sorts all
questions by view count descending (a permutation, sorted, ties preserving
input order); any other, empty or missing tab leaves the collection
unchanged with canonical tab `"Newest"`. -/
theorem questions_tab_semantics (qs : List QuestionRec)
    (tabParam : Option String) :
    (∀ s, tabParam = some s → strLower s = "unanswered" →
      (getQuestionsContext tabParam qs).1 = qs.filter (fun q => q.answers.isEmpty)) ∧
    (∀ s, tabParam = some s → strLower s = "popular" →
      ((getQuestionsContext tabParam qs).1.Perm qs ∧
       List.Sorted (fun a b => qViewCount b ≤ qViewCount a)
         (getQuestionsContext tabParam qs).1 ∧
       ∀ k, (getQuestionsContext tabParam qs).1.filter
           (fun q => decide (qViewCount q = k)) =
         qs.filter (fun q => decide (qViewCount q = k)))) ∧
    ((∀ s, tabParam = some s → s = "" ∨
        (strLower s ≠ "unanswered" ∧ strLower s ≠ "popular")) →
      getQuestionsContext tabParam qs = (qs, "Newest")) := by
  refine ⟨fun s hs hlow => ?_, fun s hs hlow => ?_, fun h => ?_⟩
  · subst hs
    have hne : s ≠ "" := strLower_ne_empty hlow (by decide)
    simp [getQuestionsContext, tabOr, hne, hlow]
  · subst hs
    have hne : s ≠ "" := strLower_ne_empty hlow (by decide)
    have hred : (getQuestionsContext (some s) qs).1 =
        qs.insertionSort (fun a b => qViewCount b ≤ qViewCount a) := by
      have hnu : strLower s ≠ "unanswered" := by rw [hlow]; decide
      simp [getQuestionsContext, tabOr, hne, hlow, hnu]
    rw [hred]
    exact ⟨List.perm_insertionSort _ _, sorted_desc_insertionSort qViewCount qs,
      fun k => filter_key_insertionSort qViewCount k qs⟩
  · cases tabParam with
    | none => simp [getQuestionsContext, tabOr, strLower]
    | some s =>
      by_cases hne : s = ""
      · subst hne
        simp [getQuestionsContext, tabOr, strLower]
      · rcases h s rfl with rfl | ⟨h1, h2⟩
        · exact absurd rfl hne
        · simp [getQuestionsContext, tabOr, hne, h1, h2]

theorem questions_tab_semantics_witness :
    (getQuestionsContext (some "UNANSWERED")
        [⟨1, [], []⟩, ⟨2, [7], []⟩]).1 =
      List.filter (fun q => q.answers.isEmpty) [⟨1, [], []⟩, ⟨2, [7], []⟩] :=
  (questions_tab_semantics [⟨1, [], []⟩, ⟨2, [7], []⟩] (some "UNANSWERED")).1
    "UNANSWERED" rfl (by decide)

/-- C4 counterexample: a recognized tab is echoed back with the caller's
original casing — resolving tab `"PoPuLaR"` on the question listing yields
`"PoPuLaR"`, which is not a canonically cased recognized value under any
casing convention. -/
theorem resolved_tab_counterexample :
    (getQuestionsContext (some "PoPuLaR") []).2 = "PoPuLaR" ∧
    "PoPuLaR" ∉ ["Newest", "newest", "NEWEST", "Unanswered", "unanswered",
      "UNANSWERED", "Popular", "popular", "POPULAR"] := by
  constructor
  · rfl
  · decide

/-- C4 (amended): when the supplied tab is missing, empty, or unrecognized,
the resolved tab is the canonical default (`"Newest"` for question listings,
`"Popular"` for the tag listing); when the supplied tab is recognized
case-insensitively, the resolved tab is the supplied string verbatim, with
the caller's original casing preserved. -/
theorem resolved_tab_semantics (tabParam : Option String)
    (qs : List QuestionRec) (ts : List TagRec) :
    (∀ s, tabParam = some s →
      (strLower s = "unanswered" ∨ strLower s = "popular") →
      (getQuestionsContext tabParam qs).2 = s) ∧
    ((∀ s, tabParam = some s → s = "" ∨
        (strLower s ≠ "unanswered" ∧ strLower s ≠ "popular")) →
      (getQuestionsContext tabParam qs).2 = "Newest") ∧
    (∀ s, tabParam = some s →
      (strLower s = "popular" ∨ strLower s = "new" ∨ strLower s = "name") →
      (tagsView tabParam ts).2 = s) ∧
    ((∀ s, tabParam = some s → s = "" ∨
        (strLower s ≠ "popular" ∧ strLower s ≠ "new" ∧ strLower s ≠ "name")) →
      (tagsView tabParam ts).2 = "Popular") := by
  refine ⟨fun s hs hlow => ?_, fun h => ?_, fun s hs hlow => ?_, fun h => ?_⟩
  · subst hs
    rcases hlow with hlow | hlow
    · have hne : s ≠ "" := strLower_ne_empty hlow (by decide)
      simp [getQuestionsContext, tabOr, hne, hlow]
    · have hne : s ≠ "" := strLower_ne_empty hlow (by decide)
      have hnu : strLower s ≠ "unanswered" := by rw [hlow]; decide
      simp [getQuestionsContext, tabOr, hne, hlow, hnu]
  · cases tabParam with
    | none => simp [getQuestionsContext, tabOr, strLower]
    | some s =>
      by_cases hne : s = ""
      · subst hne
        simp [getQuestionsContext, tabOr, strLower]
      · rcases h s rfl with rfl | ⟨h1, h2⟩
        · exact absurd rfl hne
        · simp [getQuestionsContext, tabOr, hne, h1, h2]
  · subst hs
    rcases hlow with hlow | hlow | hlow
    · have hne : s ≠ "" := strLower_ne_empty hlow (by decide)
      simp [tagsView, tabOr, hne, hlow]
    · have hne : s ≠ "" := strLower_ne_empty hlow (by decide)
      have h1 : strLower s ≠ "popular" := by rw [hlow]; decide
      simp [tagsView, tabOr, hne, hlow, h1]
    · have hne : s ≠ "" := strLower_ne_empty hlow (by decide)
      have h1 : strLower s ≠ "popular" := by rw [hlow]; decide
      have h2 : strLower s ≠ "new" := by rw [hlow]; decide
      simp [tagsView, tabOr, hne, hlow, h1, h2]
  · cases tabParam with
    | none => simp [tagsView, tabOr, strLower]
    | some s =>
      by_cases hne : s = ""
      · subst hne
        simp [tagsView, tabOr, strLower]
      · rcases h s rfl with rfl | ⟨h1, h2, h3⟩
        · exact absurd rfl hne
        · simp [tagsView, tabOr, hne, h1, h2, h3]

theorem resolved_tab_semantics_witness :
    (getQuestionsContext (some "POPULAR") []).2 = "POPULAR" :=
  (resolved_tab_semantics (some "POPULAR") [] []).1 "POPULAR" rfl
    (Or.inr (by decide))

/-- C9 counterexample: an unrecognized nonempty tag tab (here `"xyz"`) is
relabeled `"Popular"` but the tag collection is returned in stored order,
not sorted by question count descending: with question counts [1, 2] the
result keeps the count-1 tag first. -/
theorem tags_tab_counterexample :
    (tagsView (some "xyz") [⟨0, "a", 0, 1⟩, ⟨1, "b", 0, 2⟩]).1 =
      [⟨0, "a", 0, 1⟩, ⟨1, "b", 0, 2⟩] ∧
    (tagsView (some "xyz") [⟨0, "a", 0, 1⟩, ⟨1, "b", 0, 2⟩]).2 = "Popular" ∧
    ¬ List.Sorted (fun a b : TagRec => b.questionCount ≤ a.questionCount)
      [⟨0, "a", 0, 1⟩, ⟨1, "b", 0, 2⟩] := by
  refine ⟨rfl, rfl, fun h => ?_⟩
  have h2 := List.rel_of_sorted_cons h _ (List.mem_singleton_self _)
  simp at h2

/-- C9 (amended): on the tag listing, tab `popular` (case-insensitive) and
the default for a missing or empty tab stably sort by associated-question
count descending; tab `new` orders by creation timestamp descending; tab
`name` orders alphabetically by text ascending; an unrecognized nonempty
tab leaves the collection in stored order while the resolved tab becomes
`"Popular"`. -/
theorem tags_tab_semantics (ts : List TagRec) (tabParam : Option String) :
    ((∀ s, tabParam = some s → s = "" ∨ strLower s = "popular") →
      ((tagsView tabParam ts).1.Perm ts ∧
       List.Sorted (fun a b => TagRec.questionCount b ≤ TagRec.questionCount a)
         (tagsView tabParam ts).1 ∧
       ∀ k, (tagsView tabParam ts).1.filter
           (fun t => decide (t.questionCount = k)) =
         ts.filter (fun t => decide (t.questionCount = k)))) ∧
    (∀ s, tabParam = some s → strLower s = "new" →
      ((tagsView tabParam ts).1.Perm ts ∧
       List.Sorted (fun a b => TagRec.creationDate b ≤ TagRec.creationDate a)
         (tagsView tabParam ts).1)) ∧
    (∀ s, tabParam = some s → strLower s = "name" →
      ((tagsView tabParam ts).1.Perm ts ∧
       List.Sorted (fun a b => TagRec.text a ≤ TagRec.text b)
         (tagsView tabParam ts).1)) ∧
    (∀ s, tabParam = some s → s ≠ "" → strLower s ≠ "popular" →
      strLower s ≠ "new" → strLower s ≠ "name" →
      tagsView tabParam ts = (ts, "Popular")) := by
  refine ⟨fun h => ?_, fun s hs hlow => ?_, fun s hs hlow => ?_, ?_⟩
  · have hred : (tagsView tabParam ts).1 =
        ts.insertionSort (fun a b => TagRec.questionCount b ≤ TagRec.questionCount a) := by
      cases tabParam with
      | none => simp [tagsView, tabOr, strLower]
      | some s =>
        by_cases hne : s = ""
        · subst hne
          simp [tagsView, tabOr, strLower]
        · rcases h s rfl with rfl | hlow
          · exact absurd rfl hne
          · simp [tagsView, tabOr, hne, hlow]
    rw [hred]
    exact ⟨List.perm_insertionSort _ _,
      sorted_desc_insertionSort TagRec.questionCount ts,
      fun k => filter_key_insertionSort TagRec.questionCount k ts⟩
  · subst hs
    have hne : s ≠ "" := strLower_ne_empty hlow (by decide)
    have h1 : strLower s ≠ "popular" := by rw [hlow]; decide
    have hred : (tagsView (some s) ts).1 =
        ts.insertionSort (fun a b => TagRec.creationDate b ≤ TagRec.creationDate a) := by
      simp [tagsView, tabOr, hne, hlow, h1]
    rw [hred]
    exact ⟨List.perm_insertionSort _ _,
      sorted_desc_insertionSort TagRec.creationDate ts⟩
  · subst hs
    have hne : s ≠ "" := strLower_ne_empty hlow (by decide)
    have h1 : strLower s ≠ "popular" := by rw [hlow]; decide
    have h2 : strLower s ≠ "new" := by rw [hlow]; decide
    have hred : (tagsView (some s) ts).1 =
        ts.insertionSort (fun a b => TagRec.text a ≤ TagRec.text b) := by
      simp [tagsView, tabOr, hne, hlow, h1, h2]
    rw [hred]
    exact ⟨List.perm_insertionSort _ _, sorted_asc_insertionSort TagRec.text ts⟩
  · intro s hs hne h1 h2 h3
    subst hs
    simp [tagsView, tabOr, hne, h1, h2, h3]

theorem tags_tab_semantics_witness :
    ((tagsView none [⟨0, "a", 0, 1⟩, ⟨1, "b", 0, 2⟩]).1.Perm
      [⟨0, "a", 0, 1⟩, ⟨1, "b", 0, 2⟩]) :=
  ((tags_tab_semantics [⟨0, "a", 0, 1⟩, ⟨1, "b", 0, 2⟩] none).1
    (fun s h => by cases h)).1

/-! ### Deletion redirect resolution (`_del_content` in views.py) -/

/-- The redirect destination chosen after a deletion POST. `next` is
`request.POST.get("next")` (`none` when the field is absent); the source
tests `next_url in ("None", forbidden_url)`, so an absent `next` (Python's
`None` value) matches only when `forbidden_url` is itself `None`. A `none`
result models `redirect` receiving the absent value — an error, not a
usable destination. -/
def resolveDeleteRedirect (defaultUrl : String)
    (next forbidden : Option String) : Option String :=
  match next with
  | none => if forbidden = none then some defaultUrl else none
  | some n => if n = "None" ∨ some n = forbidden then some defaultUrl else some n

/-- C5 counterexample: on the question-deletion path a forbidden destination
is always supplied, and then an absent `next` does NOT resolve to the
fallback (the absent value is handed to the redirect instead). -/
theorem delete_redirect_counterexample :
    resolveDeleteRedirect "qnas:questions" none
      (some "http://testserver/qnas/1/") ≠ some "qnas:questions" := by
  decide

/-- C5 (amended): when `next` is absent and no forbidden destination is
supplied, or `next` equals the literal placeholder `"None"` or the
forbidden destination, the result is the fallback; when `next` is absent
but a forbidden destination is supplied, the result is the absent value
passed through (an error), not the fallback; otherwise the result is the
supplied `next` verbatim. -/
theorem delete_redirect_semantics (d : String)
    (next forbidden : Option String) :
    (next = none → forbidden = none →
      resolveDeleteRedirect d next forbidden = some d) ∧
    (next = none → forbidden ≠ none →
      resolveDeleteRedirect d next forbidden = none) ∧
    (∀ n, next = some n → (n = "None" ∨ some n = forbidden) →
      resolveDeleteRedirect d next forbidden = some d) ∧
    (∀ n, next = some n → n ≠ "None" → some n ≠ forbidden →
      resolveDeleteRedirect d next forbidden = some n) := by
  refine ⟨fun h1 h2 => ?_, fun h1 h2 => ?_, fun n hn hcond => ?_,
    fun n hn h1 h2 => ?_⟩
  · subst h1
    subst h2
    rfl
  · subst h1
    simp [resolveDeleteRedirect, h2]
  · subst hn
    simp [resolveDeleteRedirect, hcond]
  · subst hn
    simp [resolveDeleteRedirect, h1, h2]

theorem delete_redirect_semantics_witness :
    resolveDeleteRedirect "qnas:questions" (some "/tags/")
      (some "/qnas/1/") = some "/tags/" :=
  (delete_redirect_semantics "qnas:questions" (some "/tags/")
    (some "/qnas/1/")).2.2.2 "/tags/" rfl (by decide) (by decide)

/-! ### Ownership guard (`_validate_owner` and `get_object_or_404`) -/

inductive HttpError where
  | notFound
deriving DecidableEq

structure Content where
  author : Nat
deriving DecidableEq

/-- `_validate_owner(request, content)`: raise `Http404` unless the
requester is the content's author; otherwise do nothing. -/
def validateOwner (requesterId : Nat) (content : Content) :
    Except HttpError Unit :=
  if requesterId ≠ content.author then .error .notFound else .ok ()

/-- `get_object_or_404(Model, pk=id)`: the same `Http404` error when the id
does not exist in the store. -/
def getObjectOr404 (contents : List (Nat × Content)) (id : Nat) :
    Except HttpError Content :=
  match contents.find? (fun p => decide (p.1 = id)) with
  | none => .error .notFound
  | some p => .ok p.2

/-- C10: `authorize(requester, content)` fails with the NotFound-class error
exactly when the requester is not the author — the very error value
`get_object_or_404` raises for a nonexistent id, so the two failures are
indistinguishable — and succeeds silently (a pure function, no side
effects) when the requester is the author. -/
theorem owner_guard (r : Nat) (c : Content) (contents : List (Nat × Content))
    (missingId : Nat) (hmiss : ∀ p ∈ contents, p.1 ≠ missingId) :
    (validateOwner r c = .error .notFound ↔ r ≠ c.author) ∧
    (r = c.author → validateOwner r c = .ok ()) ∧
    getObjectOr404 contents missingId = .error .notFound := by
  refine ⟨?_, fun h => ?_, ?_⟩
  · unfold validateOwner
    by_cases h : r = c.author <;> simp [h]
  · simp [validateOwner, h]
  · unfold getObjectOr404
    have hnone : contents.find? (fun p => decide (p.1 = missingId)) = none := by
      rw [List.find?_eq_none]
      intro p hp
      simp [hmiss p hp]
    rw [hnone]

theorem owner_guard_witness :
    validateOwner 1 ⟨2⟩ = Except.error HttpError.notFound :=
  (owner_guard 1 ⟨2⟩ [] 0 (fun p hp => absurd hp (List.not_mem_nil p))).1.mpr
    (by decide)

end QnA
